import Mathlib

/-!
Verification development for a client-side task-list manager
(src/src/app/page.tsx). The Task Store operations (add, toggle, remove,
commitEdit, clearCompleted, filter) and the Persistence Adapter
(loadTodos/saveTodos over a fixed localStorage key) are embedded as pure
Lean functions; the theorems below settle the spec's testable properties.
-/

/-- The `Todo` record of the source: `{ id: string; text: string;
completed: boolean; createdAt: number }`.  `createdAt` (a JS number,
an epoch-millisecond timestamp) is modelled as an integer. -/
structure Todo where
  id : String
  text : String
  completed : Bool
  createdAt : Int
deriving Repr, DecidableEq

/-- JSON values, as produced by the platform's `JSON.parse`.  Numbers are
modelled as integers (the only numbers the app ever stores are
`Date.now()` timestamps). -/
inductive Json where
  | null
  | bool (b : Bool)
  | num (n : Int)
  | str (s : String)
  | arr (elems : List Json)
  | obj (fields : List (String × Json))
deriving Repr

/-- A raw string sitting in the storage slot, classified by what the
platform's `JSON.parse` does with it: either it throws (`malformed`) or
it parses to a JSON value (`wellFormed j`). -/
inductive RawValue where
  | malformed
  | wellFormed (j : Json)
deriving Repr

/-- The storage slot under the fixed key `"todos:v1"`: absent (`none`) or
holding a raw string (`some raw`). -/
def Storage : Type := Option RawValue

/-- Models the platform's `JSON.parse` on a stored raw string: throws a
`SyntaxError` on a malformed string, otherwise returns the parsed value. -/
def jsonParse : RawValue → Except String Json
  | .malformed => .error "SyntaxError"
  | .wellFormed j => .ok j

/-- The body of `loadTodos` before its `try`/`catch`:
`const raw = localStorage.getItem(STORAGE_KEY); if (!raw) return [];
return JSON.parse(raw) as Todo[];`.  The `as Todo[]` cast performs no
runtime check, so the result is whatever JSON value was stored; an
`.error` is a thrown exception reaching the `catch`. -/
def loadTodosBody (storage : Storage) : Except String Json :=
  match storage with
  | none => .ok (Json.arr [])
  | some raw => jsonParse raw

/-- `loadTodos` from the source: the body wrapped in `try`/`catch`, the
catch arm warning and returning `[]`.  The returned runtime value is a
JSON value (the cast does not validate it). -/
def loadTodos (storage : Storage) : Json :=
  match loadTodosBody storage with
  | .ok j => j
  | .error _ => Json.arr []

/-- Serialization of one `Todo` as `JSON.stringify` sees it: an object
with the fields in the source's literal order. -/
def encodeTodo (t : Todo) : Json :=
  Json.obj [("id", Json.str t.id), ("text", Json.str t.text),
            ("completed", Json.bool t.completed),
            ("createdAt", Json.num t.createdAt)]

/-- Serialization of a collection: a JSON array of encoded tasks. -/
def encodeTodos (todos : List Todo) : Json :=
  Json.arr (todos.map encodeTodo)

/-- `saveTodos` from the source: `localStorage.setItem(STORAGE_KEY,
JSON.stringify(todos))`.  `JSON.stringify` of a task array yields a
well-formed string that `JSON.parse` maps back to the same JSON value;
the previous slot contents are overwritten. -/
def saveTodos (todos : List Todo) (_storage : Storage) : Storage :=
  some (.wellFormed (encodeTodos todos))

/-- First binding of `key` in an object's field list, as JS property
lookup sees a parsed JSON object. -/
def getField (fields : List (String × Json)) (key : String) : Option Json :=
  match fields with
  | [] => none
  | (k, v) :: rest => if k == key then some v else getField rest key

/-- Modelled from the spec: reading one Task record off a JSON value
(`id` string, `text` string, `completed` boolean, `createdAt` number).
The source has no such validation; this decoder names what "a valid Task
record" means in the spec's words. -/
def decodeTodo (j : Json) : Option Todo :=
  match j with
  | .obj fields =>
    match getField fields "id", getField fields "text",
          getField fields "completed", getField fields "createdAt" with
    | some (.str i), some (.str tx), some (.bool c), some (.num n) =>
      some ⟨i, tx, c, n⟩
    | _, _, _, _ => none
  | _ => none

/-- Modelled from the spec: reading a list of Task records, failing if
any element fails to decode. -/
def decodeTodoList : List Json → Option (List Todo)
  | [] => some []
  | j :: rest =>
    match decodeTodo j, decodeTodoList rest with
    | some t, some ts => some (t :: ts)
    | _, _ => none

/-- Modelled from the spec: a valid Task Collection is a JSON array whose
every element decodes as a Task record. -/
def decodeTodos (j : Json) : Option (List Todo) :=
  match j with
  | .arr elems => decodeTodoList elems
  | _ => none

/-- Drops the leading whitespace characters of a character list. -/
def dropLeadingWs : List Char → List Char
  | [] => []
  | c :: rest => if c.isWhitespace then dropLeadingWs rest else c :: rest

/-- Models JavaScript's `String.prototype.trim`: strips leading and
trailing whitespace (trailing whitespace is leading whitespace of the
reversed character list). -/
def jsTrim (s : String) : String :=
  String.mk ((dropLeadingWs (dropLeadingWs s.data).reverse).reverse)

/-- `addTodo` from the source, with the nondeterministic inputs made
explicit (`newId` models `uuidv4()`, `now` models `Date.now()`).  Returns
the new collection and the new text-input state: an empty trimmed text is
a no-op (early return, input text untouched); otherwise the new task is
prepended and the input cleared. -/
def addTodo (text : String) (newId : String) (now : Int)
    (todos : List Todo) : List Todo × String :=
  let trimmed := jsTrim text
  if trimmed == "" then (todos, text)
  else (⟨newId, trimmed, false, now⟩ :: todos, "")

/-- `toggleTodo` from the source:
`s.map((t) => (t.id === id ? { ...t, completed: !t.completed } : t))`. -/
def toggleTodo (id : String) (todos : List Todo) : List Todo :=
  todos.map (fun t => if t.id == id then { t with completed := !t.completed } else t)

/-- `removeTodo` from the source: `s.filter((t) => t.id !== id)`. -/
def removeTodo (id : String) (todos : List Todo) : List Todo :=
  todos.filter (fun t => !(t.id == id))

/-- `saveEdit` from the source (the spec's `commitEdit`).  Takes the
transient `editingText` state and the collection; returns the new
collection, the new `editingId`, and the new `editingText` (the latter
two cleared by `cancelEdit()` on both paths). -/
def saveEdit (id : String) (editingText : String)
    (todos : List Todo) : List Todo × Option String × String :=
  let trimmed := jsTrim editingText
  if trimmed == "" then (removeTodo id todos, none, "")
  else (todos.map (fun t => if t.id == id then { t with text := trimmed } else t),
        none, "")

/-- `clearCompleted` from the source: `s.filter((t) => !t.completed)`. -/
def clearCompleted (todos : List Todo) : List Todo :=
  todos.filter (fun t => !t.completed)

/-- The closed set of filter modes of the source:
`"all" | "active" | "completed"`. -/
inductive TodoFilter where
  | all
  | active
  | completed
deriving Repr, DecidableEq

/-- The `visible` projection from the source:
`todos.filter((t) => { if (filter === "all") return true;
if (filter === "active") return !t.completed; return t.completed; })`. -/
def visible (filter : TodoFilter) (todos : List Todo) : List Todo :=
  todos.filter (fun t =>
    match filter with
    | .all => true
    | .active => !t.completed
    | .completed => t.completed)

/-! ## Helper lemmas -/

/-- Decoding inverts encoding on a single task. -/
lemma decodeTodo_encodeTodo (t : Todo) : decodeTodo (encodeTodo t) = some t := rfl

/-- Decoding inverts encoding on a list of tasks. -/
lemma decodeTodoList_map_encode (ts : List Todo) :
    decodeTodoList (ts.map encodeTodo) = some ts := by
  induction ts with
  | nil => rfl
  | cons t ts ih =>
    rw [List.map_cons]
    unfold decodeTodoList
    rw [decodeTodo_encodeTodo, ih]

/-! ## Claims -/

/-- C1 counterexample: the stored string `"{}"` is present and well-formed
JSON, but is not parseable as a valid Task Collection (it is not an array
of Task records); `loadTodos` nevertheless returns it unchanged instead of
the empty collection, because the `as Todo[]` cast does no validation. -/
theorem loadTodos_schema_mismatch_counterexample :
    decodeTodos (Json.obj []) = none ∧
    loadTodos (some (RawValue.wellFormed (Json.obj []))) = Json.obj [] ∧
    Json.obj [] ≠ Json.arr [] := by
  refine ⟨rfl, rfl, fun h => Json.noConfusion h⟩

/-- C1 (amended): `load()` never lets an exception propagate: an absent
value yields the empty collection, a malformed (unparseable) value makes
`JSON.parse` throw, the exception is caught and the empty collection is
returned; but a well-formed JSON value is returned exactly as parsed,
without any Task-Collection schema validation. -/
theorem loadTodos_error_handling (st : Storage) (e : String)
    (h : loadTodosBody st = .error e) :
    loadTodos none = Json.arr [] ∧
    loadTodos (some RawValue.malformed) = Json.arr [] ∧
    (∀ j, loadTodos (some (RawValue.wellFormed j)) = j) ∧
    loadTodos st = Json.arr [] := by
  refine ⟨rfl, rfl, fun j => rfl, ?_⟩
  unfold loadTodos
  rw [h]

/-- C1 witness: the amended theorem at the malformed stored value. -/
theorem loadTodos_error_handling_witness :
    loadTodos (some RawValue.malformed) = Json.arr [] :=
  (loadTodos_error_handling (some RawValue.malformed) "SyntaxError" rfl).2.1

/-- C2: saving any valid Task Collection and then loading yields a value
that decodes to exactly the same collection, field-for-field and in the
same order, regardless of what the storage slot held before. -/
theorem save_load_roundtrip (C : List Todo) (st : Storage) :
    decodeTodos (loadTodos (saveTodos C st)) = some C := by
  show decodeTodos (encodeTodos C) = some C
  unfold decodeTodos encodeTodos
  exact decodeTodoList_map_encode C

/-- C3: adding a string with non-empty trimmed form grows the collection
by exactly one, prepending a task with the trimmed text and
`completed = false`; adding a string with empty trimmed form is a no-op,
leaving the whole state (collection and input text) unchanged. -/
theorem addTodo_spec (s newId : String) (now : Int) (todos : List Todo) :
    (jsTrim s ≠ "" →
      (addTodo s newId now todos).1.length = todos.length + 1 ∧
      (addTodo s newId now todos).1 = ⟨newId, jsTrim s, false, now⟩ :: todos) ∧
    (jsTrim s = "" → addTodo s newId now todos = (todos, s)) := by
  constructor
  · intro h
    have hb : (jsTrim s == "") = false := by
      simpa using h
    unfold addTodo
    simp [hb]
  · intro h
    unfold addTodo
    simp [h]

/-- C3 witness: a concrete add of non-blank text and a concrete blank
no-op. -/
theorem addTodo_spec_witness :
    (addTodo " buy milk " "id-1" 7 []).1 =
      [⟨"id-1", jsTrim " buy milk ", false, 7⟩] ∧
    addTodo "   " "id-2" 8 [⟨"a", "x", true, 1⟩] =
      ([⟨"a", "x", true, 1⟩], "   ") := by
  constructor
  · exact ((addTodo_spec " buy milk " "id-1" 7 []).1 (by decide)).2
  · exact (addTodo_spec "   " "id-2" 8 [⟨"a", "x", true, 1⟩]).2 (by decide)

/-- The per-element function of `toggleTodo` applied twice is the
identity. -/
lemma toggleFun_involutive (id : String) (t : Todo) :
    (fun t : Todo => if t.id == id then { t with completed := !t.completed } else t)
      ((fun t : Todo => if t.id == id then { t with completed := !t.completed } else t) t)
      = t := by
  cases hb : (t.id == id) with
  | true => simp [hb]
  | false => simp [hb]

/-- C4: toggling an id present in the collection flips `completed` on the
matching task and leaves every non-matching task, and every position,
unchanged (stated position-by-position); toggling the same id twice
restores the original collection. -/
theorem toggleTodo_spec (todos : List Todo) (id : String)
    (_hpres : ∃ t ∈ todos, t.id = id) :
    (∀ i : Nat, (toggleTodo id todos)[i]? =
      (todos[i]?).map (fun t =>
        if t.id == id then { t with completed := !t.completed } else t)) ∧
    toggleTodo id (toggleTodo id todos) = todos := by
  constructor
  · intro i
    unfold toggleTodo
    exact List.getElem?_map _ todos i
  · unfold toggleTodo
    rw [List.map_map]
    exact List.map_id'' (toggleFun_involutive id) todos

/-- C4 witness: toggling a present id on a concrete two-task collection. -/
theorem toggleTodo_spec_witness :
    (toggleTodo "a" [⟨"a", "x", false, 1⟩, ⟨"b", "y", true, 2⟩])[0]? =
      some ⟨"a", "x", true, 1⟩ ∧
    toggleTodo "a" (toggleTodo "a" [⟨"a", "x", false, 1⟩, ⟨"b", "y", true, 2⟩]) =
      [⟨"a", "x", false, 1⟩, ⟨"b", "y", true, 2⟩] := by
  have h := toggleTodo_spec [⟨"a", "x", false, 1⟩, ⟨"b", "y", true, 2⟩] "a"
    ⟨⟨"a", "x", false, 1⟩, by decide⟩
  exact ⟨(h.1 0).trans (by decide), h.2⟩

/-- C5: toggling, removing, or committing an edit with an id that matches
no task in the collection leaves the collection exactly unchanged. -/
theorem missing_id_noop (todos : List Todo) (id editingText : String)
    (hmiss : ∀ t ∈ todos, t.id ≠ id) :
    toggleTodo id todos = todos ∧
    removeTodo id todos = todos ∧
    (saveEdit id editingText todos).1 = todos := by
  have hb : ∀ t ∈ todos, (t.id == id) = false := by
    intro t ht
    simpa using hmiss t ht
  have hremove : removeTodo id todos = todos := by
    apply List.filter_eq_self.mpr
    intro t ht
    simp [hb t ht]
  refine ⟨?_, hremove, ?_⟩
  · unfold toggleTodo
    have hcongr : todos.map
        (fun t => if t.id == id then { t with completed := !t.completed } else t) =
        todos.map (fun t => t) :=
      List.map_congr_left (fun t ht => by simp [hb t ht])
    rw [hcongr, List.map_id']
  · unfold saveEdit
    cases he : (jsTrim editingText == "") with
    | true => simpa [he] using hremove
    | false =>
      simp only [he, Bool.false_eq_true, if_false]
      have hcongr : todos.map
          (fun t => if t.id == id then { t with text := jsTrim editingText } else t) =
          todos.map (fun t => t) :=
        List.map_congr_left (fun t ht => by simp [hb t ht])
      rw [hcongr, List.map_id']

/-- C5 witness: the three no-ops at a concrete collection and an absent
id. -/
theorem missing_id_noop_witness :
    toggleTodo "z" [⟨"a", "x", false, 1⟩] = [⟨"a", "x", false, 1⟩] ∧
    removeTodo "z" [⟨"a", "x", false, 1⟩] = [⟨"a", "x", false, 1⟩] ∧
    (saveEdit "z" "new text" [⟨"a", "x", false, 1⟩]).1 = [⟨"a", "x", false, 1⟩] :=
  missing_id_noop [⟨"a", "x", false, 1⟩] "z" "new text" (by decide)

/-- C6: committing an edit whose new text trims to empty deletes the task
with that id — the collection equals `removeTodo id` — and clears the
transient edit state (`editingId = none`, `editingText = ""`). -/
theorem saveEdit_empty_removes (todos : List Todo) (id newText : String)
    (_hpres : ∃ t ∈ todos, t.id = id) (hempty : jsTrim newText = "") :
    saveEdit id newText todos = (removeTodo id todos, none, "") := by
  unfold saveEdit
  simp [hempty]

/-- C6 witness: a whitespace-only edit on a concrete collection removes
the matching task and clears the edit state. -/
theorem saveEdit_empty_removes_witness :
    saveEdit "a" "   " [⟨"a", "x", false, 1⟩, ⟨"b", "y", true, 2⟩] =
      (removeTodo "a" [⟨"a", "x", false, 1⟩, ⟨"b", "y", true, 2⟩], none, "") :=
  saveEdit_empty_removes [⟨"a", "x", false, 1⟩, ⟨"b", "y", true, 2⟩] "a" "   "
    ⟨⟨"a", "x", false, 1⟩, by decide⟩ (by decide)

/-- C7: committing an edit whose new text trims non-empty replaces only
the `text` field of the matching task by the trimmed text (stated
position-by-position, so ordering is pinned), leaves `id`, `completed`
and `createdAt` of every position unchanged, and clears the transient
edit state. -/
theorem saveEdit_nonempty_spec (todos : List Todo) (id newText : String)
    (_hpres : ∃ t ∈ todos, t.id = id) (hne : jsTrim newText ≠ "") :
    (saveEdit id newText todos).2 = (none, "") ∧
    (∀ i : Nat, ((saveEdit id newText todos).1)[i]? =
      (todos[i]?).map (fun t =>
        if t.id == id then { t with text := jsTrim newText } else t)) ∧
    ((saveEdit id newText todos).1).map Todo.id = todos.map Todo.id ∧
    ((saveEdit id newText todos).1).map Todo.completed = todos.map Todo.completed ∧
    ((saveEdit id newText todos).1).map Todo.createdAt = todos.map Todo.createdAt := by
  have hb : (jsTrim newText == "") = false := by simpa using hne
  have hform : saveEdit id newText todos =
      (todos.map (fun t => if t.id == id then { t with text := jsTrim newText } else t),
       none, "") := by
    unfold saveEdit
    simp [hb]
  refine ⟨by rw [hform], fun i => ?_, ?_, ?_, ?_⟩
  · rw [hform]
    exact List.getElem?_map _ todos i
  all_goals
    rw [hform]
    show (todos.map _).map _ = todos.map _
    rw [List.map_map]
    exact List.map_congr_left (fun t ht => by
      by_cases hid : t.id = id <;> simp [hid])

/-- C7 witness: a concrete non-empty edit replaces only the matching
task's text. -/
theorem saveEdit_nonempty_spec_witness :
    (saveEdit "a" " new " [⟨"a", "x", false, 1⟩, ⟨"b", "y", true, 2⟩]).2 = (none, "") ∧
    ((saveEdit "a" " new " [⟨"a", "x", false, 1⟩, ⟨"b", "y", true, 2⟩]).1)[0]? =
      some ⟨"a", "new", false, 1⟩ := by
  have h := saveEdit_nonempty_spec [⟨"a", "x", false, 1⟩, ⟨"b", "y", true, 2⟩]
    "a" " new " ⟨⟨"a", "x", false, 1⟩, by decide⟩ (by decide)
  exact ⟨h.1, (h.2.1 0).trans (by decide)⟩

/-- The tasks kept and the tasks dropped by a boolean predicate together
account for every position of the collection. -/
lemma length_filter_partition (p : Todo → Bool) (todos : List Todo) :
    (todos.filter p).length + (todos.filter (fun t => !p t)).length =
      todos.length := by
  induction todos with
  | nil => rfl
  | cons t ts ih =>
    cases h : p t <;> simp [List.filter_cons, h] <;> omega

/-- C8: `clearCompleted` keeps no completed task, keeps every
non-completed task, keeps them as an order-preserving subsequence of the
original collection, drops exactly as many tasks as were completed, and
is idempotent. -/
theorem clearCompleted_spec (todos : List Todo) :
    (∀ t ∈ clearCompleted todos, t.completed = false) ∧
    (∀ t ∈ todos, t.completed = false → t ∈ clearCompleted todos) ∧
    (clearCompleted todos).Sublist todos ∧
    (clearCompleted todos).length +
      (todos.filter (fun t => t.completed)).length = todos.length ∧
    clearCompleted (clearCompleted todos) = clearCompleted todos := by
  refine ⟨?_, ?_, List.filter_sublist todos, ?_, ?_⟩
  · intro t ht
    have := (List.mem_filter.mp ht).2
    simpa using this
  · intro t ht hc
    exact List.mem_filter.mpr ⟨ht, by simp [hc]⟩
  · have := length_filter_partition (fun t => !t.completed) todos
    simpa [clearCompleted] using this
  · apply List.filter_eq_self.mpr
    intro t ht
    exact (List.mem_filter.mp ht).2

/-- C8 witness: the theorem applied at a concrete mixed collection. -/
theorem clearCompleted_spec_witness :
    (⟨"b", "y", false, 2⟩ : Todo) ∈
      clearCompleted [⟨"a", "x", true, 1⟩, ⟨"b", "y", false, 2⟩] ∧
    clearCompleted (clearCompleted [⟨"a", "x", true, 1⟩, ⟨"b", "y", false, 2⟩]) =
      clearCompleted [⟨"a", "x", true, 1⟩, ⟨"b", "y", false, 2⟩] := by
  have h := clearCompleted_spec [⟨"a", "x", true, 1⟩, ⟨"b", "y", false, 2⟩]
  exact ⟨h.2.1 ⟨"b", "y", false, 2⟩ (by decide) rfl, h.2.2.2.2⟩

/-- C9: the `visible` projection with mode `all` is the identity on the
collection (and, being a pure function of the collection, mutates
nothing); the `active` and `completed` views partition it: no task is in
both, every task is in one of them, and their lengths sum to the
collection's length. -/
theorem visible_partition (todos : List Todo) :
    visible .all todos = todos ∧
    (∀ t, t ∈ visible .active todos → t ∉ visible .completed todos) ∧
    (∀ t, t ∈ todos ↔
      (t ∈ visible .active todos ∨ t ∈ visible .completed todos)) ∧
    (visible .active todos).length + (visible .completed todos).length =
      todos.length := by
  refine ⟨List.filter_true todos, ?_, ?_, ?_⟩
  · intro t hact hcomp
    have h1 := (List.mem_filter.mp hact).2
    have h2 := (List.mem_filter.mp hcomp).2
    simp at h1 h2
    exact absurd h2 (by simp [h1])
  · intro t
    constructor
    · intro ht
      cases hc : t.completed with
      | true => exact Or.inr (List.mem_filter.mpr ⟨ht, by simp [hc]⟩)
      | false => exact Or.inl (List.mem_filter.mpr ⟨ht, by simp [hc]⟩)
    · intro h
      cases h with
      | inl h => exact (List.mem_filter.mp h).1
      | inr h => exact (List.mem_filter.mp h).1
  · have := length_filter_partition (fun t => t.completed) todos
    simpa [visible, Nat.add_comm] using this

/-- C9 witness: the partition at a concrete mixed collection. -/
theorem visible_partition_witness :
    visible .all [⟨"a", "x", true, 1⟩, ⟨"b", "y", false, 2⟩] =
      [⟨"a", "x", true, 1⟩, ⟨"b", "y", false, 2⟩] ∧
    ((⟨"a", "x", true, 1⟩ : Todo) ∈
        visible .active [⟨"a", "x", true, 1⟩, ⟨"b", "y", false, 2⟩] ∨
      (⟨"a", "x", true, 1⟩ : Todo) ∈
        visible .completed [⟨"a", "x", true, 1⟩, ⟨"b", "y", false, 2⟩]) := by
  have h := visible_partition [⟨"a", "x", true, 1⟩, ⟨"b", "y", false, 2⟩]
  exact ⟨h.1, (h.2.2.1 ⟨"a", "x", true, 1⟩).mp (by decide)⟩

/-- C10: for each of the three filter modes, the visible view is an
order-preserving subsequence of the collection: a sublist, every element
of which is an element of the collection. -/
theorem visible_sublist (f : TodoFilter) (todos : List Todo) :
    (visible f todos).Sublist todos ∧
    ∀ t ∈ visible f todos, t ∈ todos := by
  exact ⟨List.filter_sublist todos, fun t ht => (List.mem_filter.mp ht).1⟩

/-- C10 witness: the sublist property at a concrete collection and mode,
with the membership consequence discharged at a concrete task. -/
theorem visible_sublist_witness :
    (visible .active [⟨"a", "x", true, 1⟩, ⟨"b", "y", false, 2⟩]).Sublist
      [⟨"a", "x", true, 1⟩, ⟨"b", "y", false, 2⟩] ∧
    (⟨"b", "y", false, 2⟩ : Todo) ∈ [⟨"a", "x", true, 1⟩, ⟨"b", "y", false, 2⟩] := by
  have h := visible_sublist .active [⟨"a", "x", true, 1⟩, ⟨"b", "y", false, 2⟩]
  exact ⟨h.1, h.2 ⟨"b", "y", false, 2⟩ (by decide)⟩
